import Mathlib

/-!
Verification development for the recipe-box repository: a shallow embedding of
the ingredient-parser service (`ingredient-parser-service/main.py`) and the
meal-planner service (`meal-planner-service/main.py`, `main_fastapi.py`),
together with theorems settling the specification's claims about them.

The two external collaborators (the third-party ingredient-parsing engine and
the LLM completion endpoint) are abstracted as parameters; the repository's own
extraction, validation and response-shaping logic is translated function by
function from the Python source.
-/

namespace RecipeBox

/-! ### Python string primitives

Character-level models of the Python operations used by the services.
`pySpace` models Python's whitespace class for `str.strip()` and the regex
`\s` (ASCII subset); `isDig` models `\d` (ASCII digits). -/

def pySpace (c : Char) : Bool :=
  c == ' ' || c == '\t' || c == '\n' || c == '\r' || c == '\x0b' || c == '\x0c'

def isDig (c : Char) : Bool :=
  c.isDigit

/-- Model of Python `str.strip()` on the underlying character list. -/
def pyStripList (l : List Char) : List Char :=
  ((l.dropWhile pySpace).reverse.dropWhile pySpace).reverse

/-- Model of Python `str.strip()`. -/
def pyStrip (s : String) : String :=
  ⟨pyStripList s.data⟩

/-- Model of Python `str.rstrip(',')`: drops every trailing comma. -/
def pyRstripCommaList (l : List Char) : List Char :=
  (l.reverse.dropWhile (· == ',')).reverse

/-- Bool test matching some pattern at the head of a character list;
used to model Python `str.startswith` / `str.endswith`. -/
def charsLeading : List Char → List Char → Bool
  | [], _ => true
  | _ :: _, [] => false
  | p :: ps, c :: cs => p == c && charsLeading ps cs

/-- Model of Python `s.startswith(p)`. -/
def pyStartsWith (s p : String) : Bool :=
  charsLeading p.data s.data

/-- Model of Python `s.endswith(p)`. -/
def pyEndsWith (s p : String) : Bool :=
  charsLeading p.data.reverse s.data.reverse

/-- Model of Python `s[n:]`. -/
def pyDropChars (s : String) (n : Nat) : String :=
  ⟨s.data.drop n⟩

/-- Model of Python `s[:-n]` (for `n ≤ len(s)`). -/
def pyDropEnd (s : String) (n : Nat) : String :=
  ⟨(s.data.reverse.drop n).reverse⟩

/-! ### The quantity regex

`main.py` line 55 applies `re.match(r'^(\d+(?:\s+\d+/\d+|\.\d+|/\d+)?)\s+', text.strip())`
and takes group 1.  `quantityMatchList` reproduces that match (including the
backtracking into the empty optional branch when a longer alternative is not
followed by whitespace) on an explicit character list. -/

def quantityMatchList (cs : List Char) : Option (List Char) :=
  let d := cs.takeWhile isDig
  let rest := cs.dropWhile isDig
  match d, rest with
  | [], _ => none
  | _ :: _, [] => none
  | _ :: _, c :: rt =>
    if pySpace c then
      -- alternative `\s+\d+/\d+`, else the empty alternative (next char is whitespace)
      let w := (c :: rt).takeWhile pySpace
      let r1 := (c :: rt).dropWhile pySpace
      let d2 := r1.takeWhile isDig
      let r2 := r1.dropWhile isDig
      match d2, r2 with
      | _ :: _, '/' :: r3 =>
        let d3 := r3.takeWhile isDig
        let r4 := r3.dropWhile isDig
        match d3, r4 with
        | _ :: _, c4 :: _ =>
          if pySpace c4 then some (d ++ w ++ d2 ++ '/' :: d3) else some d
        | _ :: _, [] => some d
        | [], _ => some d
      | _, _ => some d
    else if c == '.' then
      -- alternative `\.\d+`; on failure the empty alternative cannot match (`\s+` needs whitespace)
      let d2 := rt.takeWhile isDig
      let r2 := rt.dropWhile isDig
      match d2, r2 with
      | _ :: _, c2 :: _ => if pySpace c2 then some (d ++ '.' :: d2) else none
      | _, _ => none
    else if c == '/' then
      -- alternative `/\d+`
      let d2 := rt.takeWhile isDig
      let r2 := rt.dropWhile isDig
      match d2, r2 with
      | _ :: _, c2 :: _ => if pySpace c2 then some (d ++ '/' :: d2) else none
      | _, _ => none
    else none

/-- Group 1 of the quantity regex applied to `text.strip()`, as in the source. -/
def quantityRegexMatch (text : String) : Option String :=
  (quantityMatchList (pyStripList text.data)).map fun l => ⟨l⟩

/-! ### Data model of the ingredient-parser service -/

/-- One entry of the engine's `amount` list: the `quantity` / `unit` attributes,
already stringified (`none` models an absent or `None` attribute). -/
structure IngAmount where
  quantity : Option String
  unit : Option String
deriving DecidableEq

/-- Result object of the external parsing engine (`parse_ingredient`): token
texts of `name`, the `amount` list, and the optional `comment` / `preparation` /
`purpose` objects represented by their `text` field. -/
structure EngineResult where
  name : List String
  amount : List IngAmount
  comment : Option String
  preparation : Option String
  purpose : Option String
deriving DecidableEq

/-- The service's response model (`ParsedIngredient` in `main.py`). -/
structure ParsedIngredient where
  name : String
  quantity : Option String
  unit : Option String
  comment : Option String
  original_text : String
deriving DecidableEq

/-- The record built in the `except` branch of `safe_parse_ingredient`. -/
def fallbackIngredient (text : String) : ParsedIngredient :=
  { name := text, quantity := none, unit := none, comment := none,
    original_text := text }

/-- Python truthiness of an optional string (`None` and `""` are falsy). -/
def pyTruthyStrOpt (o : Option String) : Bool :=
  match o with
  | none => false
  | some s => !(s == "")

/-- Name cleanup from `main.py` lines 86-87:
`if name: name = name.strip().rstrip(',').strip()`. -/
def cleanedName (n : String) : String :=
  if n = "" then n else ⟨pyStripList (pyRstripCommaList (pyStripList n.data))⟩

/-- Translation of `safe_parse_ingredient` (`main.py` lines 39-105).  The
external engine is a parameter; `Except.error` models the engine raising. -/
def safe_parse_ingredient (engine : String → Except Unit EngineResult)
    (text : String) : ParsedIngredient :=
  match engine text with
  | .error _ => fallbackIngredient text
  | .ok parsed =>
    let name0 : String := match parsed.name with | [] => "" | t :: _ => t
    let q0 : Option String := quantityRegexMatch text
    let quantity : Option String :=
      match parsed.amount with
      | [] => q0
      | a :: _ =>
        if pyTruthyStrOpt q0 then q0
        else match a.quantity with
          | some aq => some aq
          | none => q0
    let unit : Option String :=
      match parsed.amount with
      | [] => none
      | a :: _ => a.unit
    let notes1 : List String :=
      match parsed.comment with | some c => [c] | none => []
    let notes2 : List String :=
      match parsed.preparation with | some p => notes1 ++ [p] | none => notes1
    let notes3 : List String :=
      match parsed.purpose with | some p => notes2 ++ [p] | none => notes2
    let comment : Option String :=
      match notes3 with
      | [] => none
      | ps => some (String.intercalate ", " ps)
    let name1 : String := cleanedName name0
    { name := if name1 = "" then text else name1
      quantity := quantity
      unit := unit
      comment := comment
      original_text := text }

/-- Translation of `parse_batch_ingredients` (`main.py` lines 112-120): the
loop appending `safe_parse_ingredient` of each element is a map. -/
def parse_batch_ingredients (engine : String → Except Unit EngineResult)
    (texts : List String) : List ParsedIngredient :=
  texts.map (safe_parse_ingredient engine)

/-! ### Fence stripping of completion text

Both meal-planner variants run, before `json.loads`:
`strip(); if startswith('```json'): s = s[7:]; if endswith('```'): s = s[:-3]; strip()`
(`main.py` lines 284-289 and 298-303, `main_fastapi.py` lines 141-146 and 232-237). -/

def openFence : List Char := ['`', '`', '`', 'j', 's', 'o', 'n']

def closeFence : List Char := ['`', '`', '`']

def stripFencesList (l : List Char) : List Char :=
  let l1 := pyStripList l
  let l2 := if charsLeading openFence l1 then l1.drop 7 else l1
  let l3 := if charsLeading closeFence.reverse l2.reverse then (l2.reverse.drop 3).reverse else l2
  pyStripList l3

def stripFences (s : String) : String :=
  ⟨stripFencesList s.data⟩

/-- Markdown-fenced form of a completion text: `s` wrapped in a ```` ```json ````
opening and a ```` ``` ```` closing fence line. -/
def wrapJson (s : String) : String :=
  "```json\n" ++ s ++ "\n```"

/-! ### JSON validity

Modelled from the spec: the external `json.loads` call that the services apply
to the fence-stripped completion text ("parse as JSON — fails with
`ResponseParseError` on invalid JSON") is not part of the repository, so its
accept/reject behaviour is modelled here as a recursive-descent validity
checker for the JSON grammar (whitespace, literals, numbers, strings with
escapes, arrays, objects), fuelled for termination. -/

def jsonWs (c : Char) : Bool :=
  c == ' ' || c == '\t' || c == '\n' || c == '\r'

def skipJsonWs (l : List Char) : List Char :=
  l.dropWhile jsonWs

def lbrace : Char := Char.ofNat 123

def rbrace : Char := Char.ofNat 125

/-- Consumes a JSON string body (the opening quote already consumed); an
escape consumes the following character. -/
def jsonStr : List Char → Option (List Char)
  | [] => none
  | c :: rest =>
    if c == '"' then some rest
    else if c == '\\' then
      match rest with
      | [] => none
      | _ :: r => jsonStr r
    else jsonStr rest

/-- Consumes a JSON number: optional minus, integer part, optional fraction,
optional exponent. -/
def jsonNum (l : List Char) : Option (List Char) :=
  let l1 := if l.head? = some '-' then l.drop 1 else l
  let d := l1.takeWhile isDig
  let r := l1.dropWhile isDig
  if d = [] then none
  else
    let r2 :=
      match r with
      | '.' :: rf =>
        let df := rf.takeWhile isDig
        if df = [] then none else some (rf.dropWhile isDig)
      | _ => some r
    match r2 with
    | none => none
    | some r3 =>
      match r3 with
      | c :: re =>
        if c == 'e' || c == 'E' then
          let re1 := if re.head? = some '+' || re.head? = some '-' then re.drop 1 else re
          let de := re1.takeWhile isDig
          if de = [] then none else some (re1.dropWhile isDig)
        else some r3
      | [] => some r3

mutual

def jsonVal : Nat → List Char → Option (List Char)
  | 0, _ => none
  | Nat.succ fuel, cs =>
    match cs with
    | [] => none
    | c :: rest =>
      if c == '"' then jsonStr rest
      else if c == 'n' then
        if charsLeading ['u', 'l', 'l'] rest then some (rest.drop 3) else none
      else if c == 't' then
        if charsLeading ['r', 'u', 'e'] rest then some (rest.drop 3) else none
      else if c == 'f' then
        if charsLeading ['a', 'l', 's', 'e'] rest then some (rest.drop 4) else none
      else if c == '[' then
        match skipJsonWs rest with
        | ']' :: r => some r
        | cs1 => jsonElems fuel cs1
      else if c == lbrace then
        match skipJsonWs rest with
        | c1 :: r => if c1 == rbrace then some r else jsonMembers fuel (c1 :: r)
        | [] => none
      else if c == '-' || isDig c then jsonNum cs
      else none

def jsonElems : Nat → List Char → Option (List Char)
  | 0, _ => none
  | Nat.succ fuel, cs =>
    match jsonVal fuel cs with
    | none => none
    | some cs1 =>
      match skipJsonWs cs1 with
      | ',' :: r => jsonElems fuel (skipJsonWs r)
      | ']' :: r => some r
      | _ => none

def jsonMembers : Nat → List Char → Option (List Char)
  | 0, _ => none
  | Nat.succ fuel, cs =>
    match cs with
    | '"' :: r =>
      match jsonStr r with
      | none => none
      | some cs1 =>
        match skipJsonWs cs1 with
        | ':' :: r2 =>
          match jsonVal fuel (skipJsonWs r2) with
          | none => none
          | some cs2 =>
            match skipJsonWs cs2 with
            | ',' :: r3 => jsonMembers fuel (skipJsonWs r3)
            | c :: r3 => if c == rbrace then some r3 else none
            | [] => none
        | _ => none
    | _ => none

end

/-- Validity of a whole JSON document, as accepted by the external JSON parser. -/
def jsonValid (s : String) : Bool :=
  match jsonVal (2 * s.data.length + 2) (skipJsonWs s.data) with
  | some rest => skipJsonWs rest = []
  | none => false

/-! ### Data model of the meal-planner substitution endpoint -/

/-- One entry of the request's `ingredients` list (a JSON object with
`id`/`name`/`quantity`/`unit`, read with `.get` defaults). -/
structure ReqIngredient where
  id : Option String
  name : String
  quantity : String
  unit : String
deriving DecidableEq

/-- One entry of the engine's substituted `ingredients` list, passed through
verbatim by the service. -/
structure SubIngredient where
  name : String
  quantity : String
  unit : String
deriving DecidableEq

/-- JSON values appearing in the response dictionaries built by the handler. -/
inductive JVal where
  | str (s : String)
  | optInt (n : Option Int)
  | ingList (l : List SubIngredient)
deriving DecidableEq

/-- Validated substitution request (the typed `SubstitutionRequest` of
`main_fastapi.py`, equally the locals of `_handle_substitutions` after its
required-field check passes). -/
structure SubRequest where
  recipeId : String
  title : String
  description : String
  ingredients : List ReqIngredient
  instructions : String
  prepTime : Option Int
  cookTime : Option Int
  servings : Option Int
  dietaryOptions : List String
  specificIngredients : List String
deriving DecidableEq

/-- The engine's substitution JSON, field presence modelled by `Option`
(`none` models a missing key). -/
structure SubEngineResponse where
  title : Option String
  description : Option String
  ingredients : Option (List SubIngredient)
  instructions : Option String
  substitutionNotes : Option String
deriving DecidableEq

/-- Python truthiness of an optional ingredient list (missing and `[]` falsy). -/
def pyTruthyIngListOpt (o : Option (List SubIngredient)) : Bool :=
  match o with
  | none => false
  | some l => !l.isEmpty

inductive SubError where
  | invalidResponse
deriving DecidableEq

structure SubstitutionResponse where
  originalRecipe : List (String × JVal)
  substitutedRecipe : List (String × JVal)
deriving DecidableEq

/-- The `originalRecipe` dictionary literal (`main.py` lines 224-231,
`main_fastapi.py` lines 249-256). -/
def originalRecipeDict (req : SubRequest) : List (String × JVal) :=
  [("title", .str req.title),
   ("description", .str req.description),
   ("instructions", .str req.instructions),
   ("prepTime", .optInt req.prepTime),
   ("cookTime", .optInt req.cookTime),
   ("servings", .optInt req.servings)]

/-- The `substitutedRecipe` dictionary literal (`main.py` lines 232-238,
`main_fastapi.py` lines 257-263): `.get` with the original value as default
for `title`/`description`, direct indexing for the validated keys. -/
def substitutedRecipeDict (req : SubRequest) (resp : SubEngineResponse) :
    List (String × JVal) :=
  [("title", .str (resp.title.getD req.title)),
   ("description", .str (resp.description.getD req.description)),
   ("ingredients", .ingList (resp.ingredients.getD [])),
   ("instructions", .str (resp.instructions.getD "")),
   ("substitutionNotes", .str (resp.substitutionNotes.getD ""))]

/-- Validation and response shaping applied to the parsed engine JSON
(`main.py` lines 219-239, `main_fastapi.py` lines 244-264). -/
def buildSubstitutionResponse (req : SubRequest) (resp : SubEngineResponse) :
    Except SubError SubstitutionResponse :=
  if !pyTruthyIngListOpt resp.ingredients
      || !pyTruthyStrOpt resp.instructions
      || !pyTruthyStrOpt resp.substitutionNotes then
    .error .invalidResponse
  else
    .ok { originalRecipe := originalRecipeDict req
          substitutedRecipe := substitutedRecipeDict req resp }

/-- Raw request body of `POST /recipe-substitutions` as read by
`_handle_substitutions` with `.get` (`main.py` lines 150-161): `none` models
a missing key. -/
structure RawSubRequest where
  recipeId : Option String
  title : Option String
  description : String
  ingredients : Option (List ReqIngredient)
  instructions : Option String
  prepTime : Option Int
  cookTime : Option Int
  servings : Option Int
  dietaryOptions : List String
  specificIngredients : List String
deriving DecidableEq

/-- Python truthiness of an optional request-ingredient list. -/
def pyTruthyReqListOpt (o : Option (List ReqIngredient)) : Bool :=
  match o with
  | none => false
  | some l => !l.isEmpty

/-- The request locals once validation has passed (missing optional values
read back with their falsy defaults). -/
def toTypedRequest (r : RawSubRequest) : SubRequest :=
  { recipeId := r.recipeId.getD ""
    title := r.title.getD ""
    description := r.description
    ingredients := r.ingredients.getD []
    instructions := r.instructions.getD ""
    prepTime := r.prepTime
    cookTime := r.cookTime
    servings := r.servings
    dietaryOptions := r.dietaryOptions
    specificIngredients := r.specificIngredients }

/-- Outcome of `_handle_substitutions`.  `badRequest` is the early
`_send_response(400, ...)` return taken before the engine is contacted;
`engineFailure` is the `except` branch around the engine call (API error or
unparseable completion); the other two map the post-call validation. -/
inductive HandlerOutcome where
  | badRequest
  | engineFailure
  | invalidResponse
  | success (r : SubstitutionResponse)
deriving DecidableEq

/-- HTTP status sent for each outcome (`main.py` lines 164, 220, 241, 245). -/
def statusCode : HandlerOutcome → Nat
  | .badRequest => 400
  | .engineFailure => 500
  | .invalidResponse => 500
  | .success _ => 200

/-- Translation of `_handle_substitutions` (`main.py` lines 150-245).  The
engine call (prompt construction, API round trip and JSON parse of the
completion) is abstracted as its outcome `engine`; the early required-field
check returns before that outcome is ever consulted. -/
def handleSubstitutions (engine : Except Unit SubEngineResponse)
    (r : RawSubRequest) : HandlerOutcome :=
  if !pyTruthyStrOpt r.recipeId || !pyTruthyStrOpt r.title
      || !pyTruthyReqListOpt r.ingredients || !pyTruthyStrOpt r.instructions then
    .badRequest
  else
    match engine with
    | .error _ => .engineFailure
    | .ok resp =>
      match buildSubstitutionResponse (toTypedRequest r) resp with
      | .error .invalidResponse => .invalidResponse
      | .ok out => .success out

/-! ### Witness engine stubs -/

/-! ### The numeric token forms of the specification

`specNumericTokenForm` renders the claim's wording for the leading numeric
token: an integer, an integer plus whitespace plus a fraction (mixed number),
a decimal, or a bare fraction. -/

def digitsNE (l : List Char) : Prop := l ≠ [] ∧ ∀ c ∈ l, isDig c = true

def spacesNE (l : List Char) : Prop := l ≠ [] ∧ ∀ c ∈ l, pySpace c = true

def specNumericTokenForm (q : List Char) : Prop :=
  digitsNE q ∨
  (∃ a w b c, q = a ++ w ++ b ++ '/' :: c ∧
    digitsNE a ∧ spacesNE w ∧ digitsNE b ∧ digitsNE c) ∨
  (∃ a b, q = a ++ '.' :: b ∧ digitsNE a ∧ digitsNE b) ∨
  (∃ a b, q = a ++ '/' :: b ∧ digitsNE a ∧ digitsNE b)

/-! ### Witness engine stubs -/

/-- Engine stub used by the C1 witness: raises on every input. -/
def engRaise : String → Except Unit EngineResult := fun _ => .error ()

/-- Engine stub used by the C4 witness: one name token with padding and a
trailing comma. -/
def engFlour : String → Except Unit EngineResult :=
  fun _ => .ok ⟨[" flour, "], [], none, none, none⟩

/-- Engine stub used by the C7 witness: raises on every input. -/
def engRaiseBatch : String → Except Unit EngineResult := fun _ => .error ()

/-- Engine stub used by the C2 witness: reports a structured amount whose
quantity would reformat the textual mixed fraction. -/
def engAmount : String → Except Unit EngineResult :=
  fun _ => .ok ⟨["flour"], [⟨some "1.5", some "cup"⟩], none, none, none⟩

/-! ### Helper lemmas on `takeWhile` / `dropWhile` -/

theorem dropWhile_fix_head {p : Char → Bool} {l : List Char} {a : Char} {t : List Char}
    (h : l.dropWhile p = a :: t) : p a = false := by
  induction l with
  | nil => simp at h
  | cons x xs ih =>
    rw [List.dropWhile_cons] at h
    by_cases hx : p x
    · rw [if_pos hx] at h; exact ih h
    · rw [if_neg hx] at h
      cases h
      exact eq_false_of_ne_true hx

theorem dropWhile_idem {p : Char → Bool} (l : List Char) :
    (l.dropWhile p).dropWhile p = l.dropWhile p := by
  cases h : l.dropWhile p with
  | nil => rfl
  | cons a t => rw [List.dropWhile_cons_of_neg]; simp [dropWhile_fix_head h]

theorem mem_takeWhile_sat {p : Char → Bool} : ∀ {l : List Char} {c : Char},
    c ∈ l.takeWhile p → p c = true := by
  intro l
  induction l with
  | nil => intro c h; simp [List.takeWhile] at h
  | cons x xs ih =>
    intro c h
    rw [List.takeWhile_cons] at h
    by_cases hx : p x
    · rw [if_pos hx] at h
      rcases List.mem_cons.mp h with rfl | h2
      · exact hx
      · exact ih h2
    · rw [if_neg hx] at h; simp at h

theorem span_append {p : Char → Bool} {a : List Char} {c : Char} (r : List Char)
    (ha : ∀ x ∈ a, p x = true) (hc : p c = false) :
    (a ++ c :: r).takeWhile p = a ∧ (a ++ c :: r).dropWhile p = c :: r := by
  induction a with
  | nil => simp [List.takeWhile_cons, List.dropWhile_cons, hc]
  | cons x xs ih =>
    have hx : p x = true := ha x (List.mem_cons_self ..)
    have ih2 := ih fun y hy => ha y (List.mem_cons_of_mem _ hy)
    simp only [List.cons_append, List.takeWhile_cons, List.dropWhile_cons, hx,
      if_true, ih2.1, ih2.2, and_self]

theorem dropWhile_append_all {p : Char → Bool} {a : List Char} (x : List Char)
    (ha : ∀ c ∈ a, p c = true) : (a ++ x).dropWhile p = x.dropWhile p := by
  induction a with
  | nil => rfl
  | cons y ys ih =>
    have hy : p y = true := ha y (List.mem_cons_self ..)
    rw [List.cons_append, List.dropWhile_cons_of_pos hy]
    exact ih fun c hc => ha c (List.mem_cons_of_mem _ hc)

theorem dropWhile_all_nil {p : Char → Bool} {b : List Char}
    (hb : ∀ c ∈ b, p c = true) : b.dropWhile p = [] := by
  have := dropWhile_append_all (p := p) ([] : List Char) hb
  simpa using this

theorem dropWhile_eq_nil_all {p : Char → Bool} : ∀ {x : List Char},
    x.dropWhile p = [] → ∀ c ∈ x, p c = true := by
  intro x
  induction x with
  | nil => intro _ c hc; simp at hc
  | cons a t ih =>
    intro h c hc
    rw [List.dropWhile_cons] at h
    by_cases hp : p a
    · rcases List.mem_cons.mp hc with rfl | h2
      · exact hp
      · exact ih (by rwa [if_pos hp] at h) c h2
    · rw [if_neg hp] at h; simp at h

theorem dropWhile_append_keep {p : Char → Bool} {x : List Char} (b : List Char)
    (hx : x.dropWhile p ≠ []) : (x ++ b).dropWhile p = x.dropWhile p ++ b := by
  induction x with
  | nil => simp at hx
  | cons a t ih =>
    rw [List.cons_append, List.dropWhile_cons, List.dropWhile_cons]
    by_cases hp : p a
    · rw [if_pos hp, if_pos hp]
      exact ih (by rwa [List.dropWhile_cons_of_pos hp] at hx)
    · rw [if_neg hp, if_neg hp, List.cons_append]

/-! ### Helper lemmas on `pyStripList` -/

theorem stripList_idem (l : List Char) : pyStripList (pyStripList l) = pyStripList l := by
  unfold pyStripList
  set A := l.dropWhile pySpace with hA
  set B := A.reverse.dropWhile pySpace with hB
  have h2 : B.dropWhile pySpace = B := by rw [hB]; exact dropWhile_idem _
  have h1 : B.reverse.dropWhile pySpace = B.reverse := by
    cases hrb : B.reverse with
    | nil => rfl
    | cons r0 rt =>
      have hsplit : A.reverse = A.reverse.takeWhile pySpace ++ B := by
        rw [hB]; exact (List.takeWhile_append_dropWhile ..).symm
      have hA2 : A = B.reverse ++ (A.reverse.takeWhile pySpace).reverse := by
        conv_lhs => rw [← List.reverse_reverse A, hsplit]
        rw [List.reverse_append]
      have hAfix : A.dropWhile pySpace = A := by rw [hA]; exact dropWhile_idem _
      have hA3 : A.dropWhile pySpace = r0 :: (rt ++ (A.reverse.takeWhile pySpace).reverse) := by
        conv_lhs => rw [hAfix, hA2, hrb]
        rw [List.cons_append]
      have hr0 : pySpace r0 = false := dropWhile_fix_head hA3
      exact List.dropWhile_cons_of_neg (by simp [hr0])
  rw [h1, List.reverse_reverse, h2]

theorem strip_affix {a b : List Char} (x : List Char)
    (ha : ∀ c ∈ a, pySpace c = true) (hb : ∀ c ∈ b, pySpace c = true) :
    pyStripList (a ++ x ++ b) = pyStripList x := by
  unfold pyStripList
  rw [List.append_assoc, dropWhile_append_all _ ha]
  by_cases hx : x.dropWhile pySpace = []
  · have hxall := dropWhile_eq_nil_all hx
    rw [dropWhile_append_all _ hxall, dropWhile_all_nil hb, hx]
  · rw [dropWhile_append_keep _ hx, List.reverse_append,
      dropWhile_append_all _ (fun c hc => hb c (List.mem_reverse.mp hc))]

theorem strip_eq_self {l : List Char}
    (hh : ∀ a t, l = a :: t → pySpace a = false)
    (hl : ∀ a t, l.reverse = a :: t → pySpace a = false) :
    pyStripList l = l := by
  unfold pyStripList
  have h1 : l.dropWhile pySpace = l := by
    cases hc : l with
    | nil => rfl
    | cons a t => rw [List.dropWhile_cons_of_neg (by simp [hh a t hc])]
  rw [h1]
  have h2 : l.reverse.dropWhile pySpace = l.reverse := by
    cases hc : l.reverse with
    | nil => rfl
    | cons a t => exact List.dropWhile_cons_of_neg (by simp [hl a t hc])
  rw [h2, List.reverse_reverse]

/-! ### Basic facts about `safe_parse_ingredient` -/

theorem safe_parse_original_text (eng : String → Except Unit EngineResult) (t : String) :
    (safe_parse_ingredient eng t).original_text = t := by
  unfold safe_parse_ingredient
  cases eng t <;> rfl

/-! ### Claim theorems for the ingredient normalizer -/

/-- C1: when the external parsing-engine call raises (modelled by the engine
returning `Except.error`), `normalize` returns exactly the fallback record
`{name: text, quantity: null, unit: null, comment: null, original_text: text}`;
the model of `safe_parse_ingredient` is a total function, so no exception
reaches the caller. -/
theorem safeParse_engine_error_fallback (eng : String → Except Unit EngineResult)
    (text : String) (h : eng text = .error ()) :
    safe_parse_ingredient eng text =
      { name := text, quantity := none, unit := none, comment := none,
        original_text := text } := by
  unfold safe_parse_ingredient
  rw [h]
  rfl

theorem safeParse_engine_error_fallback_witness :
    safe_parse_ingredient engRaise "1 cup sugar" =
      { name := "1 cup sugar", quantity := none, unit := none, comment := none,
        original_text := "1 cup sugar" } :=
  safeParse_engine_error_fallback engRaise "1 cup sugar" rfl

/-- C3: the comment field of `normalize` is assembled from the engine's
`comment.text`, `preparation.text` and `purpose.text` in exactly that order,
keeping only the present (non-null) ones, joined with `", "`; it is `none`
exactly when none of the three is present. -/
theorem safeParse_comment_assembly (eng : String → Except Unit EngineResult)
    (text : String) (pr : EngineResult) (h : eng text = .ok pr) :
    ((safe_parse_ingredient eng text).comment =
      match pr.comment.toList ++ pr.preparation.toList ++ pr.purpose.toList with
      | [] => none
      | ps => some (String.intercalate ", " ps)) ∧
    ((safe_parse_ingredient eng text).comment = none ↔
      pr.comment = none ∧ pr.preparation = none ∧ pr.purpose = none) := by
  unfold safe_parse_ingredient
  rw [h]
  rcases pr with ⟨n, a, c, p, u⟩
  cases c <;> cases p <;> cases u <;> simp [Option.toList]

theorem safeParse_comment_assembly_witness :
    ((safe_parse_ingredient
        (fun _ => .ok ⟨["flour"], [], some "sifted", some "chopped", none⟩)
        "flour").comment =
      match (some "sifted").toList ++ (some "chopped").toList ++ (none : Option String).toList with
      | [] => none
      | ps => some (String.intercalate ", " ps)) ∧
    ((safe_parse_ingredient
        (fun _ => .ok ⟨["flour"], [], some "sifted", some "chopped", none⟩)
        "flour").comment = none ↔
      (some "sifted" : Option String) = none ∧ (some "chopped" : Option String) = none ∧
        (none : Option String) = none) :=
  safeParse_comment_assembly _ "flour" ⟨["flour"], [], some "sifted", some "chopped", none⟩ rfl

/-- C4: for every non-empty input, `normalize` echoes the input verbatim in
`original_text` and produces a non-empty `name`; on engine success the name is
the first name token cleaned (strip, drop trailing commas, strip), with the
full original text as fallback when that cleanup yields the empty string. -/
theorem safeParse_name_and_original_text (eng : String → Except Unit EngineResult)
    (text : String) (h : text ≠ "") :
    (safe_parse_ingredient eng text).original_text = text ∧
    (safe_parse_ingredient eng text).name ≠ "" ∧
    ∀ pr, eng text = .ok pr →
      ((safe_parse_ingredient eng text).name = cleanedName (pr.name.headD "") ∧
        cleanedName (pr.name.headD "") ≠ "") ∨
      (safe_parse_ingredient eng text).name = text := by
  refine ⟨safe_parse_original_text eng text, ?_, ?_⟩
  · unfold safe_parse_ingredient
    cases he : eng text with
    | error e => exact h
    | ok pr =>
      simp only
      split
      · exact h
      · assumption
  · intro pr hpr
    unfold safe_parse_ingredient
    rw [hpr]
    simp only
    have hname : (match pr.name with | [] => "" | t :: _ => t) = pr.name.headD "" := by
      cases pr.name <;> rfl
    rw [hname]
    by_cases hc : cleanedName (pr.name.headD "") = ""
    · right; rw [if_pos hc]
    · left; rw [if_neg hc]; exact ⟨rfl, hc⟩

theorem safeParse_name_and_original_text_witness :
    (safe_parse_ingredient engFlour "2 cups flour").original_text = "2 cups flour" ∧
    (safe_parse_ingredient engFlour "2 cups flour").name ≠ "" ∧
    ∀ pr, engFlour "2 cups flour" = .ok pr →
      ((safe_parse_ingredient engFlour "2 cups flour").name =
          cleanedName (pr.name.headD "") ∧
        cleanedName (pr.name.headD "") ≠ "") ∨
      (safe_parse_ingredient engFlour "2 cups flour").name = "2 cups flour" :=
  safeParse_name_and_original_text engFlour "2 cups flour" (by decide)

/-- C7: `normalizeBatch` is elementwise `normalize`: the output has the same
length, and at each index the entry is `normalize` of the input at that index,
with `original_text` echoing that input; elements do not interact. -/
theorem parseBatch_pointwise (eng : String → Except Unit EngineResult)
    (texts : List String) :
    (parse_batch_ingredients eng texts).length = texts.length ∧
    ∀ (i : Nat) (t : String), texts[i]? = some t →
      (parse_batch_ingredients eng texts)[i]? = some (safe_parse_ingredient eng t) ∧
      ∃ r : ParsedIngredient, (parse_batch_ingredients eng texts)[i]? = some r ∧
        r.original_text = t := by
  refine ⟨by simp [parse_batch_ingredients], ?_⟩
  intro i t ht
  have h1 : (parse_batch_ingredients eng texts)[i]? = some (safe_parse_ingredient eng t) := by
    simp [parse_batch_ingredients, ht]
  exact ⟨h1, ⟨_, h1, safe_parse_original_text eng t⟩⟩

theorem parseBatch_pointwise_witness :
    (parse_batch_ingredients engRaiseBatch ["2 cups flour", ""]).length =
      (["2 cups flour", ""] : List String).length ∧
    ∀ (i : Nat) (t : String), (["2 cups flour", ""] : List String)[i]? = some t →
      (parse_batch_ingredients engRaiseBatch ["2 cups flour", ""])[i]? =
        some (safe_parse_ingredient engRaiseBatch t) ∧
      ∃ r : ParsedIngredient,
        (parse_batch_ingredients engRaiseBatch ["2 cups flour", ""])[i]? = some r ∧
          r.original_text = t :=
  parseBatch_pointwise engRaiseBatch ["2 cups flour", ""]

/-! ### Claim theorems for the substitution endpoint -/

theorem truthyStr_false_iff (o : Option String) :
    pyTruthyStrOpt o = false ↔ o.getD "" = "" := by
  cases o with
  | none => simp [pyTruthyStrOpt]
  | some s => simp [pyTruthyStrOpt]

theorem truthyIng_false_iff (o : Option (List SubIngredient)) :
    pyTruthyIngListOpt o = false ↔ o.getD [] = [] := by
  cases o with
  | none => simp [pyTruthyIngListOpt]
  | some l => simp [pyTruthyIngListOpt, List.isEmpty_iff]

/-- C5: the substitution response builder fails with `InvalidResponseError`
exactly when the engine JSON has a missing-or-empty `ingredients`,
`instructions` or `substitutionNotes`; on success, `substitutedRecipe.title`
and `.description` default to the original recipe's values when the engine
omits them. -/
theorem substitution_validation_and_defaults (req : SubRequest)
    (resp : SubEngineResponse) :
    ((buildSubstitutionResponse req resp = .error .invalidResponse) ↔
      (resp.ingredients.getD [] = [] ∨ resp.instructions.getD "" = "" ∨
        resp.substitutionNotes.getD "" = "")) ∧
    ∀ out, buildSubstitutionResponse req resp = .ok out →
      out.substitutedRecipe.lookup "title" = some (.str (resp.title.getD req.title)) ∧
      out.substitutedRecipe.lookup "description" =
        some (.str (resp.description.getD req.description)) := by
  constructor
  · have hiff : buildSubstitutionResponse req resp = .error .invalidResponse ↔
        (!pyTruthyIngListOpt resp.ingredients || !pyTruthyStrOpt resp.instructions
          || !pyTruthyStrOpt resp.substitutionNotes) = true := by
      unfold buildSubstitutionResponse
      split
      · simp_all
      · simp_all
    rw [hiff]
    simp only [Bool.or_eq_true, Bool.not_eq_true']
    rw [truthyIng_false_iff, truthyStr_false_iff, truthyStr_false_iff, or_assoc]
  · intro out hout
    unfold buildSubstitutionResponse at hout
    split at hout
    · exact absurd hout (by simp)
    · cases hout
      exact ⟨rfl, rfl⟩

theorem substitution_validation_and_defaults_witness :
    ((buildSubstitutionResponse
        ⟨"r1", "Cake", "sweet", [], "Bake.", none, none, none, [], []⟩
        ⟨none, none, some [⟨"oat milk", "1", "cup"⟩], some "Bake longer.", some "Swapped milk."⟩ =
          .error .invalidResponse) ↔
      ((some [(⟨"oat milk", "1", "cup"⟩ : SubIngredient)]).getD [] = [] ∨
        (some "Bake longer.").getD "" = "" ∨ (some "Swapped milk.").getD "" = "")) ∧
    ∀ out, buildSubstitutionResponse
        ⟨"r1", "Cake", "sweet", [], "Bake.", none, none, none, [], []⟩
        ⟨none, none, some [⟨"oat milk", "1", "cup"⟩], some "Bake longer.", some "Swapped milk."⟩ =
          .ok out →
      out.substitutedRecipe.lookup "title" =
        some (.str ((none : Option String).getD "Cake")) ∧
      out.substitutedRecipe.lookup "description" =
        some (.str ((none : Option String).getD "sweet")) :=
  substitution_validation_and_defaults
    ⟨"r1", "Cake", "sweet", [], "Bake.", none, none, none, [], []⟩
    ⟨none, none, some [⟨"oat milk", "1", "cup"⟩], some "Bake longer.", some "Swapped milk."⟩

/-- C10: every successful substitution response echoes in `originalRecipe`
exactly the six request fields `title`, `description`, `instructions`,
`prepTime`, `cookTime`, `servings`; the request's ingredient list is not
among its keys. -/
theorem substitution_original_recipe_fields (req : SubRequest)
    (resp : SubEngineResponse) (out : SubstitutionResponse)
    (h : buildSubstitutionResponse req resp = .ok out) :
    out.originalRecipe =
      [("title", .str req.title), ("description", .str req.description),
       ("instructions", .str req.instructions), ("prepTime", .optInt req.prepTime),
       ("cookTime", .optInt req.cookTime), ("servings", .optInt req.servings)] ∧
    out.originalRecipe.map Prod.fst =
      ["title", "description", "instructions", "prepTime", "cookTime", "servings"] ∧
    out.originalRecipe.lookup "ingredients" = none := by
  unfold buildSubstitutionResponse at h
  split at h
  · exact absurd h (by simp)
  · cases h
    exact ⟨rfl, rfl, rfl⟩

theorem substitution_original_recipe_fields_witness :
    (buildSubstitutionResponse
        ⟨"r1", "Cake", "sweet", [⟨some "i1", "milk", "1", "cup"⟩], "Bake.",
          some 10, some 20, some 4, [], []⟩
        ⟨some "Vegan Cake", none, some [⟨"oat milk", "1", "cup"⟩],
          some "Bake longer.", some "Swapped milk."⟩ = .ok
          { originalRecipe :=
              [("title", .str "Cake"), ("description", .str "sweet"),
               ("instructions", .str "Bake."), ("prepTime", .optInt (some 10)),
               ("cookTime", .optInt (some 20)), ("servings", .optInt (some 4))],
            substitutedRecipe :=
              [("title", .str "Vegan Cake"), ("description", .str "sweet"),
               ("ingredients", .ingList [⟨"oat milk", "1", "cup"⟩]),
               ("instructions", .str "Bake longer."),
               ("substitutionNotes", .str "Swapped milk.")] }) ∧
    ([("title", JVal.str "Cake"), ("description", .str "sweet"),
      ("instructions", .str "Bake."), ("prepTime", .optInt (some 10)),
      ("cookTime", .optInt (some 20)), ("servings", .optInt (some 4))].map Prod.fst =
        ["title", "description", "instructions", "prepTime", "cookTime", "servings"]) ∧
    ([("title", JVal.str "Cake"), ("description", .str "sweet"),
      ("instructions", .str "Bake."), ("prepTime", .optInt (some 10)),
      ("cookTime", .optInt (some 20)), ("servings", .optInt (some 4))].lookup
        "ingredients" = none) := by
  have hok : buildSubstitutionResponse
      ⟨"r1", "Cake", "sweet", [⟨some "i1", "milk", "1", "cup"⟩], "Bake.",
        some 10, some 20, some 4, [], []⟩
      ⟨some "Vegan Cake", none, some [⟨"oat milk", "1", "cup"⟩],
        some "Bake longer.", some "Swapped milk."⟩ = .ok
        { originalRecipe :=
            [("title", .str "Cake"), ("description", .str "sweet"),
             ("instructions", .str "Bake."), ("prepTime", .optInt (some 10)),
             ("cookTime", .optInt (some 20)), ("servings", .optInt (some 4))],
          substitutedRecipe :=
            [("title", .str "Vegan Cake"), ("description", .str "sweet"),
             ("ingredients", .ingList [⟨"oat milk", "1", "cup"⟩]),
             ("instructions", .str "Bake longer."),
             ("substitutionNotes", .str "Swapped milk.")] } := by rfl
  refine ⟨hok, ?_, ?_⟩
  · exact (substitution_original_recipe_fields _ _ _ hok).2.1
  · exact (substitution_original_recipe_fields _ _ _ hok).2.2

/-- C8: a substitution request whose body is missing `recipeId`, `title`,
`ingredients` or `instructions` is answered with HTTP 400, and the outcome is
the same whatever the engine would have returned — the engine is never
consulted. -/
theorem substitutions_missing_fields_bad_request
    (e₁ e₂ : Except Unit SubEngineResponse) (r : RawSubRequest)
    (h : r.recipeId = none ∨ r.title = none ∨ r.ingredients = none ∨
      r.instructions = none) :
    handleSubstitutions e₁ r = .badRequest ∧
    statusCode (handleSubstitutions e₁ r) = 400 ∧
    handleSubstitutions e₁ r = handleSubstitutions e₂ r := by
  have hb : ∀ e : Except Unit SubEngineResponse,
      handleSubstitutions e r = .badRequest := by
    intro e
    unfold handleSubstitutions
    rcases h with h | h | h | h <;>
      rw [if_pos (by simp [h, pyTruthyStrOpt, pyTruthyReqListOpt])]
  exact ⟨hb e₁, by rw [hb e₁]; rfl, by rw [hb e₁, hb e₂]⟩

theorem substitutions_missing_fields_bad_request_witness :
    handleSubstitutions (.error ())
      ⟨some "r1", none, "", some [], some "Bake.", none, none, none, [], []⟩ =
        .badRequest ∧
    statusCode (handleSubstitutions (.error ())
      ⟨some "r1", none, "", some [], some "Bake.", none, none, none, [], []⟩) = 400 ∧
    handleSubstitutions (.error ())
      ⟨some "r1", none, "", some [], some "Bake.", none, none, none, [], []⟩ =
      handleSubstitutions (.ok ⟨none, none, none, none, none⟩)
        ⟨some "r1", none, "", some [], some "Bake.", none, none, none, [], []⟩ :=
  substitutions_missing_fields_bad_request (.error ()) (.ok ⟨none, none, none, none, none⟩)
    ⟨some "r1", none, "", some [], some "Bake.", none, none, none, [], []⟩
    (Or.inr (Or.inl rfl))

/-! ### Claim theorems for fence stripping -/

/-- C9: the two fence markers are handled independently. If the stripped text
starts with ```` ```json ```` (and after dropping it no trailing ```` ``` ````
remains), only the prefix is removed; if it does not start with
```` ```json ```` but ends with ```` ``` ````, only the suffix is removed;
whitespace is trimmed before and after. -/
theorem fence_markers_independent (s : String) :
    ((pyStartsWith (pyStrip s) "```json" = true ∧
        pyEndsWith (pyDropChars (pyStrip s) 7) "```" = false) →
      stripFences s = pyStrip (pyDropChars (pyStrip s) 7)) ∧
    ((pyStartsWith (pyStrip s) "```json" = false ∧
        pyEndsWith (pyStrip s) "```" = true) →
      stripFences s = pyStrip (pyDropEnd (pyStrip s) 3)) := by
  constructor
  · rintro ⟨h1, h2⟩
    have h1' : charsLeading openFence (pyStripList s.data) = true := h1
    have h2' : charsLeading closeFence.reverse
        ((pyStripList s.data).drop 7).reverse = false := h2
    show (⟨stripFencesList s.data⟩ : String) = ⟨pyStripList ((pyStripList s.data).drop 7)⟩
    simp only [stripFencesList, h1', h2', if_true, if_false, Bool.false_eq_true]
  · rintro ⟨h1, h2⟩
    have h1' : charsLeading openFence (pyStripList s.data) = false := h1
    have h2' : charsLeading closeFence.reverse (pyStripList s.data).reverse = true := h2
    show (⟨stripFencesList s.data⟩ : String) =
      ⟨pyStripList (((pyStripList s.data).reverse.drop 3).reverse)⟩
    simp only [stripFencesList, h1', h2', if_true, if_false, Bool.false_eq_true]

theorem fence_markers_independent_witness :
    (((pyStartsWith (pyStrip "```json [1, 2") "```json" = true ∧
        pyEndsWith (pyDropChars (pyStrip "```json [1, 2") 7) "```" = false) →
      stripFences "```json [1, 2" =
        pyStrip (pyDropChars (pyStrip "```json [1, 2") 7)) ∧
      ((pyStartsWith (pyStrip "```json [1, 2") "```json" = false ∧
          pyEndsWith (pyStrip "```json [1, 2") "```" = true) →
        stripFences "```json [1, 2" =
          pyStrip (pyDropEnd (pyStrip "```json [1, 2") 3))) ∧
    stripFences "```json [1, 2" = pyStrip (pyDropChars (pyStrip "```json [1, 2") 7) ∧
    stripFences "[1, 2]```" = pyStrip (pyDropEnd (pyStrip "[1, 2]```") 3) :=
  ⟨fence_markers_independent "```json [1, 2",
   (fence_markers_independent "```json [1, 2").1 ⟨by decide, by decide⟩,
   (fence_markers_independent "[1, 2]```").2 ⟨by decide, by decide⟩⟩

/-- Explicit character-level form of the wrapped completion text. -/
theorem wrapJson_data (s : String) :
    (wrapJson s).data =
      '`' :: '`' :: '`' :: 'j' :: 's' :: 'o' :: 'n' :: '\n' ::
        (s.data ++ ['\n', '`', '`', '`']) := rfl

/-- C6 counterexample: a completion text that itself carries fences parses
differently wrapped and unwrapped — wrapped, the stripped remainder still
contains the inner fences and is not valid JSON, while unwrapped it strips to
the valid JSON document `1`. -/
theorem fence_wrap_not_parse_invariant_cx :
    stripFences (wrapJson "```json\n1\n```") ≠ stripFences "```json\n1\n```" ∧
    jsonValid (stripFences "```json\n1\n```") = true ∧
    jsonValid (stripFences (wrapJson "```json\n1\n```")) = false := by
  refine ⟨by decide, by decide, by decide⟩

/-- C6 (amended): for every completion text whose trimmed form neither starts
with ```` ```json ```` nor ends with ```` ``` ````, the fence-stripped wrapped
text is literally the same string as the fence-stripped unwrapped text, so
parsing yields the same result. -/
theorem fence_wrap_parse_invariant (s : String)
    (h1 : pyStartsWith (pyStrip s) "```json" = false)
    (h2 : pyEndsWith (pyStrip s) "```" = false) :
    stripFences (wrapJson s) = stripFences s ∧
    jsonValid (stripFences (wrapJson s)) = jsonValid (stripFences s) := by
  have h1' : charsLeading openFence (pyStripList s.data) = false := h1
  have h2' : charsLeading closeFence.reverse (pyStripList s.data).reverse = false := h2
  -- the unwrapped side reduces to plain stripping
  have ha : stripFences s = pyStrip s := by
    show (⟨stripFencesList s.data⟩ : String) = ⟨pyStripList s.data⟩
    simp only [stripFencesList, h1', h2', Bool.false_eq_true, if_false]
    rw [stripList_idem]
  -- the wrapped side: outer strip is the identity
  have hW2 : (wrapJson s).data =
      ('`' :: '`' :: '`' :: 'j' :: 's' :: 'o' :: 'n' :: '\n' ::
        (s.data ++ ['\n', '`', '`'])) ++ ['`'] := by
    rw [wrapJson_data]; simp
  have hWrev : (wrapJson s).data.reverse =
      '`' :: ('`' :: '`' :: '`' :: 'j' :: 's' :: 'o' :: 'n' :: '\n' ::
        (s.data ++ ['\n', '`', '`'])).reverse := by
    rw [hW2, List.reverse_append]; rfl
  have hstrip : pyStripList (wrapJson s).data = (wrapJson s).data := by
    apply strip_eq_self
    · intro a t hat
      rw [wrapJson_data] at hat
      have h' := congrArg List.head? hat
      simp only [List.head?_cons, Option.some.injEq] at h'
      rw [← h']; decide
    · intro a t hat
      rw [hWrev] at hat
      have h' := congrArg List.head? hat
      simp only [List.head?_cons, Option.some.injEq] at h'
      rw [← h']; decide
  -- evaluate the two fence tests and slices on the wrapped text
  have hb : stripFences (wrapJson s) = ⟨pyStripList ('\n' :: (s.data ++ ['\n']))⟩ := by
    show (⟨stripFencesList (wrapJson s).data⟩ : String) = _
    simp only [stripFencesList]
    rw [hstrip, wrapJson_data]
    have hopen : charsLeading openFence
        ('`' :: '`' :: '`' :: 'j' :: 's' :: 'o' :: 'n' :: '\n' ::
          (s.data ++ ['\n', '`', '`', '`'])) = true := rfl
    rw [hopen, if_pos rfl]
    have hdrop : ('`' :: '`' :: '`' :: 'j' :: 's' :: 'o' :: 'n' :: '\n' ::
        (s.data ++ ['\n', '`', '`', '`'])).drop 7 =
        '\n' :: (s.data ++ ['\n', '`', '`', '`']) := rfl
    rw [hdrop]
    have hrev2 : ('\n' :: (s.data ++ ['\n', '`', '`', '`'])).reverse =
        '`' :: '`' :: '`' :: ('\n' :: (s.data ++ ['\n'])).reverse := by
      have : ('\n' :: (s.data ++ ['\n', '`', '`', '`'])) =
          ('\n' :: (s.data ++ ['\n'])) ++ ['`', '`', '`'] := by simp
      rw [this, List.reverse_append]; rfl
    rw [hrev2]
    have hclose : charsLeading closeFence.reverse
        ('`' :: '`' :: '`' :: ('\n' :: (s.data ++ ['\n'])).reverse) = true := rfl
    rw [hclose, if_pos rfl]
    have hdrop3 : ('`' :: '`' :: '`' :: ('\n' :: (s.data ++ ['\n'])).reverse).drop 3 =
        ('\n' :: (s.data ++ ['\n'])).reverse := rfl
    rw [hdrop3, List.reverse_reverse]
  have hc : pyStripList ('\n' :: (s.data ++ ['\n'])) = pyStripList s.data := by
    have : ('\n' :: (s.data ++ ['\n'])) = ['\n'] ++ s.data ++ ['\n'] := by simp
    rw [this]
    exact strip_affix s.data (by decide) (by decide)
  have hmain : stripFences (wrapJson s) = stripFences s := by
    rw [hb, ha]
    show (⟨pyStripList ('\n' :: (s.data ++ ['\n']))⟩ : String) = ⟨pyStripList s.data⟩
    rw [hc]
  exact ⟨hmain, by rw [hmain]⟩

theorem fence_wrap_parse_invariant_witness :
    stripFences (wrapJson "[1, 2]") = stripFences "[1, 2]" ∧
    jsonValid (stripFences (wrapJson "[1, 2]")) = jsonValid (stripFences "[1, 2]") :=
  fence_wrap_parse_invariant "[1, 2]" (by decide) (by decide)

theorem space_not_dig {x : Char} (h : pySpace x = true) : isDig x = false := by
  have hx : x = ' ' ∨ x = '\t' ∨ x = '\n' ∨ x = '\r' ∨ x = '\x0b' ∨ x = '\x0c' := by
    simpa [pySpace, Bool.or_eq_true, beq_iff_eq, or_assoc] using h
  rcases hx with rfl | rfl | rfl | rfl | rfl | rfl <;> decide

theorem dig_not_space {x : Char} (h : isDig x = true) : pySpace x = false := by
  cases hps : pySpace x with
  | false => rfl
  | true => exact absurd h (by simp [space_not_dig hps])

theorem specForm_ne_nil {l : List Char} (h : specNumericTokenForm l) : l ≠ [] := by
  rcases h with ⟨hne, -⟩ | ⟨a, w, b, c, rfl, ⟨hne, -⟩, -⟩ |
    ⟨a, b, rfl, ⟨hne, -⟩, -⟩ | ⟨a, b, rfl, ⟨hne, -⟩, -⟩
  · exact hne
  all_goals
    cases a with
    | nil => simp at hne
    | cons x xs => simp

theorem quantityMatch_sound {cs q : List Char} (h : quantityMatchList cs = some q) :
    specNumericTokenForm q ∧ ∃ c rest, cs = q ++ c :: rest ∧ pySpace c = true := by
  have hcs : cs.takeWhile isDig ++ cs.dropWhile isDig = cs :=
    List.takeWhile_append_dropWhile ..
  unfold quantityMatchList at h
  dsimp only at h
  split at h
  · exact absurd h (by simp)
  · exact absurd h (by simp)
  · rename_i d0 d' c rt heq1 heq2
    split at h
    · rename_i hsp
      -- whitespace branch: either the full mixed-number alternative or the bare integer
      split at h
      · rename_i d20 d2' r3 heq3 heq4
        split at h
        · rename_i d30 d3' c4 t4 heq5 heq6
          split at h
          · rename_i hsp4
            -- full mixed-number match
            rw [heq1, heq3, heq5] at h
            injection h with hq
            subst hq
            constructor
            · right; left
              refine ⟨d0 :: d', List.takeWhile pySpace (c :: rt), d20 :: d2',
                d30 :: d3', rfl, ?_, ?_, ?_, ?_⟩
              · exact ⟨by simp, by rw [← heq1]; exact fun x hx => mem_takeWhile_sat hx⟩
              · constructor
                · rw [List.takeWhile_cons_of_pos hsp]; simp
                · exact fun x hx => mem_takeWhile_sat hx
              · exact ⟨by simp, by rw [← heq3]; exact fun x hx => mem_takeWhile_sat hx⟩
              · exact ⟨by simp, by rw [← heq5]; exact fun x hx => mem_takeWhile_sat hx⟩
            · refine ⟨c4, t4, ?_, hsp4⟩
              have e1 : (c :: rt : List Char) =
                  List.takeWhile pySpace (c :: rt) ++ List.dropWhile pySpace (c :: rt) :=
                (List.takeWhile_append_dropWhile ..).symm
              have e2 : List.dropWhile pySpace (c :: rt) =
                  List.takeWhile isDig (List.dropWhile pySpace (c :: rt)) ++
                    List.dropWhile isDig (List.dropWhile pySpace (c :: rt)) :=
                (List.takeWhile_append_dropWhile ..).symm
              have e3 : r3 = r3.takeWhile isDig ++ r3.dropWhile isDig :=
                (List.takeWhile_append_dropWhile ..).symm
              conv_lhs => rw [← hcs, heq1, heq2, e1, e2, heq4, e3, heq5, heq6, heq3]
              simp [List.append_assoc]
          all_goals
            rw [heq1] at h
            injection h with hq
            subst hq
            exact ⟨Or.inl ⟨by simp, by rw [← heq1]; exact fun x hx => mem_takeWhile_sat hx⟩,
              c, rt, by rw [← hcs, heq1, heq2], hsp⟩
        all_goals
          rw [heq1] at h
          injection h with hq
          subst hq
          exact ⟨Or.inl ⟨by simp, by rw [← heq1]; exact fun x hx => mem_takeWhile_sat hx⟩,
            c, rt, by rw [← hcs, heq1, heq2], hsp⟩
      · rw [heq1] at h
        injection h with hq
        subst hq
        exact ⟨Or.inl ⟨by simp, by rw [← heq1]; exact fun x hx => mem_takeWhile_sat hx⟩,
          c, rt, by rw [← hcs, heq1, heq2], hsp⟩
    · rename_i hspn
      split at h
      · rename_i hdot
        have hceq : c = '.' := by simpa using hdot
        subst hceq
        split at h
        · rename_i d20 d2' c2 t2 heq3 heq4
          split at h
          · rename_i hsp2
            rw [heq1, heq3] at h
            injection h with hq
            subst hq
            constructor
            · right; right; left
              exact ⟨d0 :: d', d20 :: d2', rfl,
                ⟨by simp, by rw [← heq1]; exact fun x hx => mem_takeWhile_sat hx⟩,
                ⟨by simp, by rw [← heq3]; exact fun x hx => mem_takeWhile_sat hx⟩⟩
            · refine ⟨c2, t2, ?_, hsp2⟩
              have e1 : rt = rt.takeWhile isDig ++ rt.dropWhile isDig :=
                (List.takeWhile_append_dropWhile ..).symm
              conv_lhs => rw [← hcs, heq1, heq2, e1, heq3, heq4]
              simp [List.append_assoc]
          · exact absurd h (by simp)
        · exact absurd h (by simp)
      · split at h
        · rename_i hslash
          have hceq : c = '/' := by simpa using hslash
          subst hceq
          split at h
          · rename_i d20 d2' c2 t2 heq3 heq4
            split at h
            · rename_i hsp2
              rw [heq1, heq3] at h
              injection h with hq
              subst hq
              constructor
              · right; right; right
                exact ⟨d0 :: d', d20 :: d2', rfl,
                  ⟨by simp, by rw [← heq1]; exact fun x hx => mem_takeWhile_sat hx⟩,
                  ⟨by simp, by rw [← heq3]; exact fun x hx => mem_takeWhile_sat hx⟩⟩
              · refine ⟨c2, t2, ?_, hsp2⟩
                have e1 : rt = rt.takeWhile isDig ++ rt.dropWhile isDig :=
                  (List.takeWhile_append_dropWhile ..).symm
                conv_lhs => rw [← hcs, heq1, heq2, e1, heq3, heq4]
                simp [List.append_assoc]
            · exact absurd h (by simp)
          · exact absurd h (by simp)
        · exact absurd h (by simp)
theorem quantityMatch_complete {cs tok : List Char} {c : Char} {rest : List Char}
    (hcs : cs = tok ++ c :: rest) (hform : specNumericTokenForm tok)
    (hc : pySpace c = true) : quantityMatchList cs ≠ none := by
  rcases hform with ⟨hne, hall⟩ |
    ⟨a, w, b, c3, htok, ⟨hane, haall⟩, ⟨hwne, hwall⟩, ⟨hbne, hball⟩, ⟨hcne, hcall⟩⟩ |
    ⟨a, b, htok, ⟨hane, haall⟩, ⟨hbne, hball⟩⟩ |
    ⟨a, b, htok, ⟨hane, haall⟩, ⟨hbne, hball⟩⟩
  · -- integer token
    obtain ⟨t0, t', rfl⟩ := List.exists_cons_of_ne_nil hne
    have h1 : cs.takeWhile isDig = t0 :: t' := by
      rw [hcs]; exact (span_append rest hall (space_not_dig hc)).1
    have h2 : cs.dropWhile isDig = c :: rest := by
      rw [hcs]; exact (span_append rest hall (space_not_dig hc)).2
    unfold quantityMatchList
    dsimp only
    rw [h1, h2]
    dsimp only
    rw [if_pos hc]
    split <;> (try split) <;> (try split) <;> simp
  · -- mixed-number token  a ++ w ++ b ++ '/' :: c3
    subst htok
    obtain ⟨a0, a', rfl⟩ := List.exists_cons_of_ne_nil hane
    obtain ⟨w0, w', rfl⟩ := List.exists_cons_of_ne_nil hwne
    obtain ⟨b0, b', rfl⟩ := List.exists_cons_of_ne_nil hbne
    obtain ⟨e0, e', rfl⟩ := List.exists_cons_of_ne_nil hcne
    have hw0 : pySpace w0 = true := hwall w0 (List.mem_cons_self ..)
    have hb0 : isDig b0 = true := hball b0 (List.mem_cons_self ..)
    have hcs2 : cs = (a0 :: a') ++ w0 :: (w' ++ (b0 :: b') ++ '/' :: (e0 :: e') ++ c :: rest) := by
      rw [hcs]; simp
    have h1 : cs.takeWhile isDig = a0 :: a' := by
      rw [hcs2]; exact (span_append _ haall (space_not_dig hw0)).1
    have h2 : cs.dropWhile isDig = w0 :: (w' ++ (b0 :: b') ++ '/' :: (e0 :: e') ++ c :: rest) := by
      rw [hcs2]; exact (span_append _ haall (space_not_dig hw0)).2
    unfold quantityMatchList
    dsimp only
    rw [h1, h2]
    dsimp only
    rw [if_pos hw0]
    split <;> (try split) <;> (try split) <;> simp
  · -- decimal token  a ++ '.' :: b
    subst htok
    obtain ⟨a0, a', rfl⟩ := List.exists_cons_of_ne_nil hane
    obtain ⟨b0, b', rfl⟩ := List.exists_cons_of_ne_nil hbne
    have hcs2 : cs = (a0 :: a') ++ '.' :: ((b0 :: b') ++ c :: rest) := by
      rw [hcs]; simp
    have h1 : cs.takeWhile isDig = a0 :: a' := by
      rw [hcs2]; exact (span_append _ haall (by decide)).1
    have h2 : cs.dropWhile isDig = '.' :: ((b0 :: b') ++ c :: rest) := by
      rw [hcs2]; exact (span_append _ haall (by decide)).2
    unfold quantityMatchList
    dsimp only
    rw [h1, h2]
    dsimp only
    rw [if_neg (by decide), if_pos (by decide)]
    have h3 : List.takeWhile isDig ((b0 :: b') ++ c :: rest) = b0 :: b' :=
      (span_append _ hball (space_not_dig hc)).1
    have h4 : List.dropWhile isDig ((b0 :: b') ++ c :: rest) = c :: rest :=
      (span_append _ hball (space_not_dig hc)).2
    rw [h3, h4]
    dsimp only
    rw [if_pos hc]
    simp
  · -- fraction token  a ++ '/' :: b
    subst htok
    obtain ⟨a0, a', rfl⟩ := List.exists_cons_of_ne_nil hane
    obtain ⟨b0, b', rfl⟩ := List.exists_cons_of_ne_nil hbne
    have hcs2 : cs = (a0 :: a') ++ '/' :: ((b0 :: b') ++ c :: rest) := by
      rw [hcs]; simp
    have h1 : cs.takeWhile isDig = a0 :: a' := by
      rw [hcs2]; exact (span_append _ haall (by decide)).1
    have h2 : cs.dropWhile isDig = '/' :: ((b0 :: b') ++ c :: rest) := by
      rw [hcs2]; exact (span_append _ haall (by decide)).2
    unfold quantityMatchList
    dsimp only
    rw [h1, h2]
    dsimp only
    rw [if_neg (by decide), if_neg (by decide), if_pos (by decide)]
    have h3 : List.takeWhile isDig ((b0 :: b') ++ c :: rest) = b0 :: b' :=
      (span_append _ hball (space_not_dig hc)).1
    have h4 : List.dropWhile isDig ((b0 :: b') ++ c :: rest) = c :: rest :=
      (span_append _ hball (space_not_dig hc)).2
    rw [h3, h4]
    dsimp only
    rw [if_pos hc]
    simp

theorem quantityMatch_shape_ne_nil {cs l : List Char}
    (h : quantityMatchList cs = some l) : l ≠ [] :=
  specForm_ne_nil (quantityMatch_sound h).1

/-- C2: quantity extraction gives first priority to the textual regex match on
the trimmed input (preserving mixed fractions verbatim), falling back to the
engine's first structured amount only when the regex fails, and to `none` when
neither source yields a value.  The regex match, when it fires, is a leading
numeric token of the claimed forms followed by whitespace, and it fires
whenever such a token is present. -/
theorem safeParse_quantity_priority (eng : String → Except Unit EngineResult)
    (text : String) (pr : EngineResult) (h : eng text = .ok pr) :
    ((safe_parse_ingredient eng text).quantity =
      match quantityRegexMatch text with
      | some q => some q
      | none => pr.amount.head?.bind IngAmount.quantity) ∧
    (∀ q, quantityMatchList (pyStripList text.data) = some q →
      specNumericTokenForm q ∧
      ∃ c rest, pyStripList text.data = q ++ c :: rest ∧ pySpace c = true) ∧
    (∀ tok c rest, pyStripList text.data = tok ++ c :: rest →
      specNumericTokenForm tok → pySpace c = true →
      quantityRegexMatch text ≠ none) := by
  refine ⟨?_, fun q hq => quantityMatch_sound hq, fun tok c rest h1 h2 h3 => ?_⟩
  · unfold safe_parse_ingredient
    rw [h]
    dsimp only
    cases hq : quantityRegexMatch text with
    | none =>
      cases ha : pr.amount with
      | nil => simp
      | cons a l =>
        have ht : pyTruthyStrOpt none = false := rfl
        rw [ht]
        simp only [Bool.false_eq_true, if_false]
        cases haq : a.quantity with
        | none => simp [haq]
        | some aq => simp [haq]
    | some q =>
      have hqne : q ≠ "" := by
        obtain ⟨l, hl, rfl⟩ : ∃ l, quantityMatchList (pyStripList text.data) = some l ∧
            q = ⟨l⟩ := by
          unfold quantityRegexMatch at hq
          cases hml : quantityMatchList (pyStripList text.data) with
          | none => rw [hml] at hq; simp at hq
          | some l => rw [hml] at hq; simp at hq; exact ⟨l, rfl, hq.symm⟩
        have := quantityMatch_shape_ne_nil hl
        intro habs
        apply this
        have : (⟨l⟩ : String).data = ("" : String).data := by rw [habs]
        simpa using this
      have ht : pyTruthyStrOpt (some q) = true := by
        simp [pyTruthyStrOpt, hqne]
      cases ha : pr.amount with
      | nil => simp
      | cons a l => rw [ht]; simp
  · intro habs
    unfold quantityRegexMatch at habs
    rw [Option.map_eq_none'] at habs
    exact quantityMatch_complete h1 h2 h3 habs

theorem safeParse_quantity_priority_witness :
    ((safe_parse_ingredient engAmount "1 1/2 cups flour").quantity =
      match quantityRegexMatch "1 1/2 cups flour" with
      | some q => some q
      | none => (⟨["flour"], [⟨some "1.5", some "cup"⟩], none, none, none⟩ :
          EngineResult).amount.head?.bind IngAmount.quantity) ∧
    (∀ q, quantityMatchList (pyStripList ("1 1/2 cups flour" : String).data) = some q →
      specNumericTokenForm q ∧
      ∃ c rest, pyStripList ("1 1/2 cups flour" : String).data = q ++ c :: rest ∧
        pySpace c = true) ∧
    (∀ tok c rest, pyStripList ("1 1/2 cups flour" : String).data = tok ++ c :: rest →
      specNumericTokenForm tok → pySpace c = true →
      quantityRegexMatch "1 1/2 cups flour" ≠ none) :=
  safeParse_quantity_priority engAmount "1 1/2 cups flour"
    ⟨["flour"], [⟨some "1.5", some "cup"⟩], none, none, none⟩ rfl

end RecipeBox
